import Mathlib

/-!
Verification of the `datetime` repository against its specification.

The development shallowly embeds two parts of the repository:

* `src/cal/local/date_from_yd.rs`: the `Date::yd` constructor building a
  local date from a year and a day-of-year value.
* `src/format.rs`: the date-format template parser (`FormatParser`) and
  renderer (`DateFormat::format`, `Field::format`).

The calendar converter (`DaysSinceEpoch`, the `DatePiece` accessors and
`Year::is_leap_year`) and the small `range_check` / `pad` helper crates are
referenced by the sources above but are not part of the repository snapshot
under `src/`; those parts are modelled from the specification, and each such
definition is marked `Modelled from the spec:` in its doc comment.

Machine integers (`i64`, `usize`) are modelled as `Int` / `Nat`; none of the
arithmetic in the embedded code can overflow an `i64` on the inputs the
claims quantify over, so no wrap-around modelling is needed.  Rust string
slices are modelled as `List Char`, and byte offsets of `CharIndices` as
character indices (they agree on ASCII input and are order-isomorphic in
general).
-/

deriving instance DecidableEq for Except

namespace Datetime

/-! ## Calendar data model -/

/-- Month enumeration, January = 1 ... December = 12 (`cal::unit::Month`). -/
inductive Month
  | january | february | march | april | may | june
  | july | august | september | october | november | december
  deriving DecidableEq, Repr

/-- Weekday enumeration (`cal::unit::Weekday`). -/
inductive Weekday
  | monday | tuesday | wednesday | thursday | friday | saturday | sunday
  deriving DecidableEq, Repr

/-- Modelled from the spec: `Year::is_leap_year` (in `cal/unit`, not under
`src/`): a year is a leap year when it is divisible by 4 and (not divisible
by 100 or divisible by 400).  Years are signed and may be zero or negative. -/
def is_leap_year (y : Int) : Bool :=
  y % 4 == 0 && (y % 100 != 0 || y % 400 == 0)

/-- Modelled from the spec: `days_in_year(Year) -> 365 | 366`. -/
def days_in_year (y : Int) : Int := if is_leap_year y then 366 else 365

/-- Modelled from the spec: day number of the "day 0 of January" sentinel of
year `y` (the day before January 1 of `y`) in a proleptic-Gregorian signed
day count.  The epoch constant is chosen so that `jan0 0 = 0`; the spec
leaves the epoch abstract and no claim depends on it. -/
def jan0 (y : Int) : Int :=
  365 * (y - 1) + (y - 1) / 4 - (y - 1) / 100 + (y - 1) / 400 + 366

/-- Modelled from the spec: days of year `y` strictly before the first day
of month `m` (0 for January, 31 for February, ...). -/
def days_before_month (leap : Bool) (m : Month) : Int :=
  let l : Int := if leap then 1 else 0
  match m with
  | .january   => 0
  | .february  => 31
  | .march     => 59 + l
  | .april     => 90 + l
  | .may       => 120 + l
  | .june      => 151 + l
  | .july      => 181 + l
  | .august    => 212 + l
  | .september => 243 + l
  | .october   => 273 + l
  | .november  => 304 + l
  | .december  => 334 + l

/-- Modelled from the spec: `to_days_since_epoch(YearMonthDay)`, the
monotone proleptic-Gregorian day-number conversion; `day = 0` is the valid
internal "start of month" sentinel used when seeding epoch arithmetic. -/
def to_days_since_epoch (y : Int) (m : Month) (d : Int) : Int :=
  jan0 y + days_before_month (is_leap_year y) m + d

/-- Modelled from the spec: the year component of
`from_days_since_epoch`, the exact inverse of `to_days_since_epoch`.
`400 * d / 146097` approximates the year (146097 days per 400-year cycle)
and is then corrected against `jan0`. -/
def year_of_day (d : Int) : Int :=
  if d ≤ jan0 (400 * d / 146097) then 400 * d / 146097 - 1
  else if d ≤ jan0 (400 * d / 146097 + 1) then 400 * d / 146097
  else 400 * d / 146097 + 1

/-- `local::Date`: an immutable value wrapping a signed day count; every
calendar attribute is derived from it on demand. -/
structure Date where
  daysSinceEpoch : Int
  deriving DecidableEq, Repr

/-- Modelled from the spec: the `year()` accessor of `DatePiece`. -/
def Date.year (d : Date) : Int := year_of_day d.daysSinceEpoch

/-- Modelled from the spec: the `yearday()` accessor of `DatePiece`
(ordinal day of the year, 1 for January 1). -/
def Date.yearday (d : Date) : Int := d.daysSinceEpoch - jan0 (Date.year d)

/-- Modelled from the spec: split a 1-based ordinal day of the year into
month and 1-based day of the month. -/
def month_and_day (leap : Bool) (yday : Int) : Month × Int :=
  let l : Int := if leap then 1 else 0
  if yday ≤ 31 then (.january, yday)
  else if yday ≤ 59 + l then (.february, yday - 31)
  else if yday ≤ 90 + l then (.march, yday - (59 + l))
  else if yday ≤ 120 + l then (.april, yday - (90 + l))
  else if yday ≤ 151 + l then (.may, yday - (120 + l))
  else if yday ≤ 181 + l then (.june, yday - (151 + l))
  else if yday ≤ 212 + l then (.july, yday - (181 + l))
  else if yday ≤ 243 + l then (.august, yday - (212 + l))
  else if yday ≤ 273 + l then (.september, yday - (243 + l))
  else if yday ≤ 304 + l then (.october, yday - (273 + l))
  else if yday ≤ 334 + l then (.november, yday - (304 + l))
  else (.december, yday - (334 + l))

/-- Modelled from the spec: the `month()` accessor of `DatePiece`. -/
def Date.month (d : Date) : Month :=
  (month_and_day (is_leap_year (Date.year d)) (Date.yearday d)).1

/-- Modelled from the spec: the `day()` accessor of `DatePiece`. -/
def Date.day (d : Date) : Int :=
  (month_and_day (is_leap_year (Date.year d)) (Date.yearday d)).2

/-- Modelled from the spec: the `year_of_century()` accessor of
`DatePiece`. -/
def Date.year_of_century (d : Date) : Int := (Date.year d) % 100

/-- Modelled from the spec: the `weekday()` accessor of `DatePiece`, a pure
derived query of the day count.  No claim constrains which day count maps to
which weekday; the anchor below is arbitrary and unobserved. -/
def Date.weekday (d : Date) : Weekday :=
  match (d.daysSinceEpoch % 7).toNat with
  | 0 => .monday
  | 1 => .tuesday
  | 2 => .wednesday
  | 3 => .thursday
  | 4 => .friday
  | 5 => .saturday
  | _ => .sunday

/-! ## Date::yd (src/cal/local/date_from_yd.rs) -/

/-- The error of `range_check::Check::check_range`, carrying the offending
value and the valid bound (modelled from the spec: the `range_check` crate
is not under `src/`). -/
structure RangeError where
  value : Int
  lower : Int
  upper : Int
  deriving DecidableEq, Repr

/-- Modelled from the spec: `value.check_range(lower..upper)` returns the
value when it lies in the half-open range and a `RangeError` otherwise. -/
def check_range (value lower upper : Int) : Except RangeError Int :=
  if lower ≤ value ∧ value < upper then .ok value else .error ⟨value, lower, upper⟩

/-- `Date::yd` from `src/cal/local/date_from_yd.rs`: validate `yearday`
against `0..days_in_year` (where the source's local `days_in_year` is 367
for leap years and 366 otherwise), then convert `(year, January, day 0)` to
a day count and add `yearday`. -/
def Date.yd (year : Int) (yearday : Int) : Except RangeError Date :=
  let days_in_year : Int := if is_leap_year year then 367 else 366
  match check_range yearday 0 days_in_year with
  | .error e => .error e
  | .ok yearday =>
      let jan_1 := to_days_since_epoch year Month.january 0
      .ok ⟨jan_1 + yearday⟩

/-! ## Calendar lemmas -/

/-- Stepping `jan0` by one year adds the length of that year. -/
theorem jan0_succ (y : Int) : jan0 (y + 1) = jan0 y + days_in_year y := by
  unfold jan0 days_in_year is_leap_year
  split
  all_goals
    rename_i h
    simp only [Bool.and_eq_true, Bool.or_eq_true, beq_iff_eq, bne_iff_ne] at h
    omega

/-- `jan0` is monotone. -/
theorem jan0_mono (a b : Int) (h : a ≤ b) : jan0 a ≤ jan0 b := by
  unfold jan0; omega

/-- Linear lower bound on `jan0`, used to bracket the year approximation. -/
theorem jan0_lb (y : Int) : 146097 * (y - 1) + 145600 ≤ 400 * jan0 y := by
  unfold jan0; omega

/-- Linear upper bound on `jan0`, used to bracket the year approximation. -/
theorem jan0_ub (y : Int) : 400 * jan0 y ≤ 146097 * (y - 1) + 146800 := by
  unfold jan0; omega

/-- The year approximation `400 * d / 146097` is within one of the year
containing day `d`. -/
theorem q_window (y d : Int) (h1 : jan0 y < d) (h2 : d ≤ jan0 (y + 1)) :
    y - 1 ≤ 400 * d / 146097 ∧ 400 * d / 146097 ≤ y + 1 := by
  have l1 := jan0_lb y
  have u2 := jan0_ub (y + 1)
  omega

/-- Characterisation of `year_of_day`: day `d` belongs to year `y` exactly
when `jan0 y < d ≤ jan0 (y + 1)`. -/
theorem year_of_day_eq (y d : Int) (h1 : jan0 y < d) (h2 : d ≤ jan0 (y + 1)) :
    year_of_day d = y := by
  obtain ⟨hw1, hw2⟩ := q_window y d h1 h2
  have hq : y - 1 = 400 * d / 146097 ∨ y = 400 * d / 146097 ∨ y + 1 = 400 * d / 146097 := by
    omega
  have m1 := jan0_mono (y - 1) y
  have m2 := jan0_mono (y + 1) (y + 2)
  unfold year_of_day
  rcases hq with hq | hq | hq <;> rw [← hq]
  · have hyy : y - 1 + 1 = y := by ring
    rw [hyy]
    split_ifs <;> omega
  · split_ifs
    all_goals omega
  · have hyy : y + 1 + 1 = y + 2 := by ring
    rw [hyy]
    split_ifs <;> omega

/-- Unfolding of a successful `Date.yd`: it accepts exactly the half-open
range `0 ≤ yearday < (367 | 366)` and lands on day `jan0 year + yearday`. -/
theorem yd_ok_iff (y n : Int) (d : Date) :
    Date.yd y n = .ok d ↔
      (0 ≤ n ∧ n < (if is_leap_year y then (367 : Int) else 366) ∧
        d = ⟨jan0 y + n⟩) := by
  unfold Date.yd check_range to_days_since_epoch days_before_month
  dsimp only
  by_cases hc : 0 ≤ n ∧ n < (if is_leap_year y then (367 : Int) else 366)
  · rw [if_pos hc]
    constructor
    · intro h
      simp only [Except.ok.injEq] at h
      refine ⟨hc.1, hc.2, ?_⟩
      rw [← h]
      simp only [Date.mk.injEq]
      ring
    · rintro ⟨-, -, hd⟩
      subst hd
      simp only [Except.ok.injEq, Date.mk.injEq]
      ring
  · rw [if_neg hc]
    constructor
    · intro h
      exact absurd h (by simp)
    · rintro ⟨h1, h2, -⟩
      exact absurd ⟨h1, h2⟩ hc

/-- Round-trip for the in-range, strictly positive ordinals: every accepted
`(year, yearday)` pair with `yearday ≥ 1` comes back unchanged through the
`year()` and `yearday()` accessors. -/
theorem yd_roundtrip (y n : Int) (d : Date) (hok : Date.yd y n = .ok d)
    (hpos : 1 ≤ n) : Date.year d = y ∧ Date.yearday d = n := by
  rw [yd_ok_iff] at hok
  obtain ⟨h0, hlt, hd⟩ := hok
  subst hd
  have hstep := jan0_succ y
  have hbound : n ≤ days_in_year y := by
    unfold days_in_year
    unfold days_in_year at hstep
    split_ifs at hlt hstep ⊢ <;> omega
  have hyear : year_of_day (jan0 y + n) = y := by
    apply year_of_day_eq <;> omega
  constructor
  · exact hyear
  · unfold Date.yearday Date.year
    simp only [hyear]
    ring

/-! ## Claims C8, C9, C1, C2 -/

/-- C8: `is_leap_year(year)` is true exactly when `year` is divisible by 4
and (not divisible by 100 or divisible by 400), for every signed year
including zero and negative years; in particular 2000 and 2016 are leap
years while 1900 and 2015 are not. -/
theorem claim_c8_is_leap_year :
    (∀ y : Int, is_leap_year y = true ↔ (4 ∣ y ∧ (¬(100 ∣ y) ∨ 400 ∣ y))) ∧
    is_leap_year 2000 = true ∧ is_leap_year 1900 = false ∧
    is_leap_year 2015 = false ∧ is_leap_year 2016 = true := by
  refine ⟨?_, by decide, by decide, by decide, by decide⟩
  intro y
  unfold is_leap_year
  simp only [Bool.and_eq_true, Bool.or_eq_true, beq_iff_eq, bne_iff_ne]
  omega

/-- C9: golden construction cases. `Date::yd(2015, 1)` succeeds and yields
year 2015, January, day 1; `Date::yd(2015, 256)` succeeds and yields year
2015, September, day 13. -/
theorem claim_c9_golden_cases :
    Date.yd 2015 1 = .ok ⟨735965⟩ ∧
    Date.year ⟨735965⟩ = 2015 ∧ Date.month ⟨735965⟩ = Month.january ∧
    Date.day ⟨735965⟩ = 1 ∧
    Date.yd 2015 256 = .ok ⟨736220⟩ ∧
    Date.year ⟨736220⟩ = 2015 ∧ Date.month ⟨736220⟩ = Month.september ∧
    Date.day ⟨736220⟩ = 13 := by
  decide

/-- C1: the claimed round-trip fails on the code at the accepted input
`(year 2015, yearday 0)`.  `Date::yd(2015, 0)` returns `Ok` (0 passes the
`0..366` range check), but the produced day count is the "January 0"
sentinel of 2015, i.e. 31 December 2014: its `year()` is 2014, not 2015,
and its `yearday()` is 365, not 0.  The spec's required property is the
intent (it says to resolve the bound via the round-trip property), so this
is a defect of the code's lower bound. -/
theorem claim_c1_yd_zero_breaks_roundtrip :
    Date.yd 2015 0 = .ok ⟨735964⟩ ∧
    Date.year ⟨735964⟩ = 2014 ∧ Date.yearday ⟨735964⟩ = 365 ∧
    Date.month ⟨735964⟩ = Month.december ∧ Date.day ⟨735964⟩ = 31 := by
  decide

/-- C2 counterexample: `Date::yd` does not return `Ok` exactly on the valid
ordinal range.  `yd(2015, 0)` is accepted although 0 is below the
conventional minimum 1, while `yd(2016, 367)` — one past the conventional
leap-year maximum 366, which the claim's parenthetical suggests is the
extra accepted value — is rejected. -/
theorem claim_c2_counterexample :
    Date.yd 2015 0 = .ok ⟨735964⟩ ∧
    Date.yd 2016 367 = .error ⟨367, 0, 367⟩ := by
  decide

/-- C2 (amended): `Date::yd(year, yearday)` validates `yearday` against the
half-open range `0 .. (367 if leap else 366)` before any conversion and
returns `Ok` exactly when `0 ≤ yearday < that bound` — the conventional
ordinal range extended downward by the single value 0 (not upward past the
maximum); on failure it returns a `RangeError` carrying the offending value
and the valid bound, creating no partial state. -/
theorem claim_c2_validation (y n : Int) :
    ((∃ d, Date.yd y n = .ok d) ↔
      (0 ≤ n ∧ n < (if is_leap_year y then (367 : Int) else 366))) ∧
    (¬(0 ≤ n ∧ n < (if is_leap_year y then (367 : Int) else 366)) →
      Date.yd y n = .error ⟨n, 0, if is_leap_year y then 367 else 366⟩) := by
  constructor
  · constructor
    · rintro ⟨d, hd⟩
      rw [yd_ok_iff] at hd
      exact ⟨hd.1, hd.2.1⟩
    · intro h
      exact ⟨⟨jan0 y + n⟩, (yd_ok_iff y n ⟨jan0 y + n⟩).2 ⟨h.1, h.2, rfl⟩⟩
  · intro h
    unfold Date.yd check_range
    dsimp only
    rw [if_neg h]

/-- Witness for C2: the amended characterisation applied at the concrete
inputs `(2015, 1)` (accepted) and `(2015, 400)` (rejected with the error
payload carrying 400 and the bound `0..366`). -/
theorem claim_c2_validation_witness :
    (∃ d, Date.yd 2015 1 = .ok d) ∧
    Date.yd 2015 400 = .error ⟨400, 0, 366⟩ :=
  ⟨(claim_c2_validation 2015 1).1.2 (by decide),
   (claim_c2_validation 2015 400).2 (by decide)⟩

/-! ## Format strings: data model (src/format.rs) -/

/-- The opening curly brace character. -/
def obr : Char := Char.ofNat 123

/-- The closing curly brace character. -/
def cbr : Char := Char.ofNat 125

/-- Modelled from the spec: `pad::Alignment` (the `pad` crate is not under
`src/`; the spec's renderer contract only involves left/right alignment). -/
inductive Alignment
  | left | right
  deriving DecidableEq, Repr

/-- `Arguments`: optional alignment, width and pad character; absence of
all three means "no padding". -/
structure Arguments where
  alignment : Option Alignment
  width : Option Nat
  pad_char : Option Char
  deriving DecidableEq, Repr

/-- `Arguments::empty`. -/
def Arguments.empty : Arguments :=
  { alignment := none, width := none, pad_char := none }

/-- `Arguments::is_empty`. -/
def Arguments.is_empty (self : Arguments) : Bool :=
  self.alignment.isNone && self.width.isNone && self.pad_char.isNone

/-- `TextArguments`: the arguments accepted by a text field. -/
structure TextArguments where
  args : Arguments
  deriving DecidableEq, Repr

/-- `NumArguments`: the arguments accepted by a numeric field. -/
structure NumArguments where
  args : Arguments
  deriving DecidableEq, Repr

/-- `Field`: one compiled unit of a template.  `literal` carries the slice
of the template it borrows, represented by its character content. -/
inductive Field
  | literal (s : List Char)
  | year (a : NumArguments)
  | yearOfCentury (a : NumArguments)
  | monthName (long : Bool) (a : TextArguments)
  | day (a : NumArguments)
  | weekdayName (long : Bool) (a : TextArguments)
  deriving DecidableEq, Repr

/-- `DateFormat`: an ordered sequence of fields. -/
structure DateFormat where
  fields : List Field
  deriving DecidableEq, Repr

/-- `FormatError`, the parse-time error taxonomy. -/
inductive FormatError
  | invalidChar (c : Char) (colon : Bool) (pos : Nat)
  | openCurlyBrace (open_pos : Nat)
  | closeCurlyBrace (close_pos : Nat)
  | missingField (open_pos : Nat) (close_pos : Nat)
  deriving DecidableEq, Repr

/-! ## Format strings: rendering -/

/-- Writing `&str` into an in-memory `Vec<u8>` buffer (`w.write_str(s)`)
always succeeds; the buffer is modelled at character granularity. -/
def write_str (w : List Char) (s : List Char) : Except Unit (List Char) :=
  .ok (w ++ s)

/-- Modelled from the spec: `PadStr::pad` of the `pad` crate — pad `s` to
`width` with `pad_char` under `alignment`, never truncating. -/
def pad (s : List Char) (width : Nat) (pad_char : Char) (alignment : Alignment) :
    List Char :=
  if width ≤ s.length then s
  else
    match alignment with
    | .left => s ++ List.replicate (width - s.length) pad_char
    | .right => List.replicate (width - s.length) pad_char ++ s

/-- `Arguments::format`: apply the (defaulted) padding and write. -/
def Arguments.format (self : Arguments) (w : List Char) (string : List Char) :
    Except Unit (List Char) :=
  let width := self.width.getD 0
  let pad_char := self.pad_char.getD ' '
  let alignment := self.alignment.getD Alignment.left
  write_str w (pad string width pad_char alignment)

/-- `TextArguments::format`. -/
def TextArguments.format (self : TextArguments) (w : List Char)
    (string : List Char) : Except Unit (List Char) :=
  self.args.format w string

/-- Decimal digits of a natural number; structural fuel bounds the digit
count. -/
def natDigits : Nat → Nat → List Char
  | 0, _ => []
  | fuel + 1, n =>
    if n < 10 then [Nat.digitChar n]
    else natDigits fuel (n / 10) ++ [Nat.digitChar (n % 10)]

/-- An `i64` rendered in decimal with its natural sign
(`number.to_string()`); 40 digits of fuel cover any `i64`. -/
def intToString (n : Int) : List Char :=
  if n < 0 then '-' :: natDigits 40 n.natAbs else natDigits 40 n.toNat

/-- `NumArguments::format`. -/
def NumArguments.format (self : NumArguments) (w : List Char) (number : Int) :
    Except Unit (List Char) :=
  self.args.format w (intToString number)

/-- `long_month_name`. -/
def long_month_name (month : Month) : List Char :=
  (match month with
   | .january => "January"   | .february => "February"
   | .march => "March"       | .april => "April"
   | .may => "May"           | .june => "June"
   | .july => "July"         | .august => "August"
   | .september => "September" | .october => "October"
   | .november => "November" | .december => "December").toList

/-- `short_month_name`. -/
def short_month_name (month : Month) : List Char :=
  (match month with
   | .january => "Jan" | .february => "Feb" | .march => "Mar"
   | .april => "Apr"   | .may => "May"      | .june => "Jun"
   | .july => "Jul"    | .august => "Aug"   | .september => "Sep"
   | .october => "Oct" | .november => "Nov" | .december => "Dec").toList

/-- `long_day_name`. -/
def long_day_name (day : Weekday) : List Char :=
  (match day with
   | .monday => "Monday"       | .tuesday => "Tuesday"
   | .wednesday => "Wednesday" | .thursday => "Thursday"
   | .friday => "Friday"       | .saturday => "Saturday"
   | .sunday => "Sunday").toList

/-- `short_day_name`. -/
def short_day_name (day : Weekday) : List Char :=
  (match day with
   | .monday => "Mon" | .tuesday => "Tue" | .wednesday => "Wed"
   | .thursday => "Thu" | .friday => "Fri" | .saturday => "Sat"
   | .sunday => "Sun").toList

/-- `Field::format`: render one field against `when` into the buffer `w`. -/
def Field.format (self : Field) (when : Date) (w : List Char) :
    Except Unit (List Char) :=
  match self with
  | .literal s => write_str w s
  | .year a => a.format w (Date.year when)
  | .yearOfCentury a => a.format w (Date.year_of_century when)
  | .monthName true a => a.format w (long_month_name (Date.month when))
  | .monthName false a => a.format w (short_month_name (Date.month when))
  | .day a => a.format w (Date.day when)
  | .weekdayName true a => a.format w (long_day_name (Date.weekday when))
  | .weekdayName false a => a.format w (short_day_name (Date.weekday when))

/-- `DateFormat::format`: render each field in order into an in-memory
buffer, ignoring each per-field `IoResult` exactly as the source does; the
final `String::from_utf8(buf).unwrap()` is the identity at character
granularity. -/
def DateFormat.format (self : DateFormat) (when : Date) : List Char :=
  self.fields.foldl
    (fun buf bit =>
      match Field.format bit when buf with
      | .ok b => b
      | .error _ => buf)
    []

/-! ## Format strings: parsing -/

/-- The slice `input[a..b]` of the template, at character granularity. -/
def spanOf (input : List Char) (a b : Nat) : List Char :=
  (input.drop a).take (b - a)

/-- `CharIndices`: the characters of the input paired with their offsets,
starting at `n`. -/
def char_indices : List Char → Nat → List (Nat × Char)
  | [], _ => []
  | c :: rest, n => (n, c) :: char_indices rest (n + 1)

/-- `FormatParser::collect_up_to_anchor`: if a literal run is anchored,
push it as a single `literal` field spanning from the anchor up to
`position` (or to the end of the input when `position` is `none`). -/
def collect_up_to_anchor (input : List Char) (anchor : Option Nat)
    (position : Option Nat) (fields : List Field) : List Field :=
  match anchor with
  | some pos =>
    let text :=
      match position with
      | some new_pos => spanOf input pos new_pos
      | none => input.drop pos
    fields ++ [.literal text]
  | none => fields

/-- `FormatParser::parse_a_thing`: parse the inside of a field opened at
`open_pos`, over the remaining character stream; on success return the
parsed field together with the not-yet-consumed stream.  `first` and `bit`
are the loop-carried locals of the source. -/
def parse_a_thing (input : List Char) (open_pos : Nat) (first : Bool)
    (bit : Option Field) :
    List (Nat × Char) → Except FormatError (Field × List (Nat × Char))
  | [] => .error (.openCurlyBrace open_pos)
  | (pos, c) :: rest =>
    if c = obr ∧ first = true then
      .ok (.literal (spanOf input pos (pos + 1)), rest)
    else if c = ':' then
      match rest with
      | [] => .error (.openCurlyBrace open_pos)
      | (pos2, c2) :: rest2 =>
        if c2 = 'Y' then
          parse_a_thing input open_pos false (some (.year ⟨Arguments.empty⟩)) rest2
        else if c2 = 'y' then
          parse_a_thing input open_pos false (some (.yearOfCentury ⟨Arguments.empty⟩)) rest2
        else if c2 = 'M' then
          parse_a_thing input open_pos false (some (.monthName true ⟨Arguments.empty⟩)) rest2
        else if c2 = 'D' then
          parse_a_thing input open_pos false (some (.day ⟨Arguments.empty⟩)) rest2
        else if c2 = 'E' then
          parse_a_thing input open_pos false (some (.weekdayName true ⟨Arguments.empty⟩)) rest2
        else .error (.invalidChar c2 true pos2)
    else if c = cbr then
      match bit with
      | some b => .ok (b, rest)
      | none => .error (.missingField open_pos pos)
    else .error (.invalidChar c false pos)

/-- `FormatParser::parse_format_string`.  The source's loop is driven here
by structural `fuel`; every iteration consumes at least one character of
the stream, so any `fuel` at least the stream length (as supplied by
`DateFormat.parse`) makes the fuel-exhausted case unreachable — that case
is given the same value as the end-of-input case. -/
def parse_format_string (input : List Char) :
    Nat → Option Nat → List Field → List (Nat × Char) →
      Except FormatError (List Field)
  | _, anchor, fields, [] => .ok (collect_up_to_anchor input anchor none fields)
  | 0, anchor, fields, _ :: _ => .ok (collect_up_to_anchor input anchor none fields)
  | fuel + 1, anchor, fields, (new_pos, c) :: rest =>
    if c = obr then
      let fields2 := collect_up_to_anchor input anchor (some new_pos) fields
      match parse_a_thing input new_pos true none rest with
      | .error e => .error e
      | .ok (field, rest2) =>
        parse_format_string input fuel none (fields2 ++ [field]) rest2
    else if c = cbr then
      match rest with
      | (_, c2) :: rest2 =>
        if c2 = cbr then
          let fields2 := collect_up_to_anchor input anchor (some new_pos) fields
          parse_format_string input fuel none
            (fields2 ++ [.literal (spanOf input new_pos (new_pos + 1))]) rest2
        else .error (.closeCurlyBrace new_pos)
      | [] => .error (.closeCurlyBrace new_pos)
    else
      match anchor with
      | none => parse_format_string input fuel (some new_pos) fields rest
      | some _ => parse_format_string input fuel anchor fields rest

/-- `DateFormat::parse`: run the parser over the whole input and wrap the
collected fields. -/
def DateFormat.parse (input : List Char) : Except FormatError DateFormat :=
  match parse_format_string input input.length none [] (char_indices input 0) with
  | .error e => .error e
  | .ok fields => .ok ⟨fields⟩

/-- Every `OpenCurlyBrace` error produced by `parse_a_thing` is anchored at
the opening brace offset it was called with. -/
theorem parse_a_thing_openCurly (input : List Char) (op : Nat) (first : Bool)
    (bit : Option Field) (rest : List (Nat × Char)) :
    ∀ p : Nat, parse_a_thing input op first bit rest = .error (.openCurlyBrace p) →
      p = op := by
  induction first, bit, rest using parse_a_thing.induct input op with
  | case1 first bit =>
      intro p h
      rw [parse_a_thing.eq_def] at h
      simp at h
      omega
  | case2 first bit pos2 c2 rest2 hc =>
      obtain ⟨rfl, rfl⟩ := hc
      intro p h
      rw [parse_a_thing.eq_def] at h
      simp [obr, cbr] at h
  | case3 first bit pos2 hc =>
      intro p h
      rw [parse_a_thing.eq_def] at h
      simp [obr, cbr] at h
      omega
  | case4 first bit pos2 pos21 rest2 hc ih =>
      intro p h
      rw [parse_a_thing.eq_def] at h
      simp [obr, cbr] at h
      exact ih p h
  | case5 first bit pos2 pos21 rest2 hc hy ih =>
      intro p h
      rw [parse_a_thing.eq_def] at h
      simp [obr, cbr] at h
      exact ih p h
  | case6 first bit pos2 pos21 rest2 hc h1 h2 ih =>
      intro p h
      rw [parse_a_thing.eq_def] at h
      simp [obr, cbr] at h
      exact ih p h
  | case7 first bit pos2 pos21 rest2 hc h1 h2 h3 ih =>
      intro p h
      rw [parse_a_thing.eq_def] at h
      simp [obr, cbr] at h
      exact ih p h
  | case8 first bit pos2 pos21 rest2 hc h1 h2 h3 h4 ih =>
      intro p h
      rw [parse_a_thing.eq_def] at h
      simp [obr, cbr] at h
      exact ih p h
  | case9 first bit pos2 pos21 c2 rest2 h1 h2 h3 h4 h5 hc =>
      intro p h
      rw [parse_a_thing.eq_def] at h
      simp_all [obr, cbr]
  | case10 first pos2 rest2 b h1 h2 =>
      intro p h
      rw [parse_a_thing.eq_def] at h
      simp_all [obr, cbr]
  | case11 first pos2 rest2 h1 h2 =>
      intro p h
      rw [parse_a_thing.eq_def] at h
      simp_all [obr, cbr]
  | case12 first bit pos2 c2 rest2 h1 h2 h3 =>
      intro p h
      rw [parse_a_thing.eq_def] at h
      dsimp only at h
      rw [if_neg h1, if_neg h2, if_neg h3] at h
      simp at h

/-- On success `parse_a_thing` returns a suffix of the stream it was
given. -/
theorem parse_a_thing_suffix (input : List Char) (op : Nat) (first : Bool)
    (bit : Option Field) (rest : List (Nat × Char)) :
    ∀ (f : Field) (rest2 : List (Nat × Char)),
      parse_a_thing input op first bit rest = .ok (f, rest2) →
        rest2.IsSuffix rest := by
  induction first, bit, rest using parse_a_thing.induct input op with
  | case1 first bit =>
      intro f rest2 h
      rw [parse_a_thing.eq_def] at h
      simp at h
  | case2 first bit pos2 c2 rest2 hc =>
      obtain ⟨rfl, rfl⟩ := hc
      intro f r2 h
      rw [parse_a_thing.eq_def] at h
      simp [obr, cbr] at h
      rw [← h.2]
      exact List.suffix_cons _ _
  | case3 first bit pos2 hc =>
      intro f r2 h
      rw [parse_a_thing.eq_def] at h
      simp [obr, cbr] at h
  | case4 first bit pos2 pos21 rest2 hc ih =>
      intro f r2 h
      rw [parse_a_thing.eq_def] at h
      simp [obr, cbr] at h
      exact (ih f r2 h).trans
        ((List.suffix_cons _ _).trans (List.suffix_cons _ _))
  | case5 first bit pos2 pos21 rest2 hc hy ih =>
      intro f r2 h
      rw [parse_a_thing.eq_def] at h
      simp [obr, cbr] at h
      exact (ih f r2 h).trans
        ((List.suffix_cons _ _).trans (List.suffix_cons _ _))
  | case6 first bit pos2 pos21 rest2 hc h1 h2 ih =>
      intro f r2 h
      rw [parse_a_thing.eq_def] at h
      simp [obr, cbr] at h
      exact (ih f r2 h).trans
        ((List.suffix_cons _ _).trans (List.suffix_cons _ _))
  | case7 first bit pos2 pos21 rest2 hc h1 h2 h3 ih =>
      intro f r2 h
      rw [parse_a_thing.eq_def] at h
      simp [obr, cbr] at h
      exact (ih f r2 h).trans
        ((List.suffix_cons _ _).trans (List.suffix_cons _ _))
  | case8 first bit pos2 pos21 rest2 hc h1 h2 h3 h4 ih =>
      intro f r2 h
      rw [parse_a_thing.eq_def] at h
      simp [obr, cbr] at h
      exact (ih f r2 h).trans
        ((List.suffix_cons _ _).trans (List.suffix_cons _ _))
  | case9 first bit pos2 pos21 c2 rest2 h1 h2 h3 h4 h5 hc =>
      intro f r2 h
      rw [parse_a_thing.eq_def] at h
      simp_all [obr, cbr]
  | case10 first pos2 rest2 b h1 h2 =>
      intro f r2 h
      rw [parse_a_thing.eq_def] at h
      simp [obr, cbr] at h
      rw [← h.2]
      exact List.suffix_cons _ _
  | case11 first pos2 rest2 h1 h2 =>
      intro f r2 h
      rw [parse_a_thing.eq_def] at h
      simp_all [obr, cbr]
  | case12 first bit pos2 c2 rest2 h1 h2 h3 =>
      intro f r2 h
      rw [parse_a_thing.eq_def] at h
      dsimp only at h
      rw [if_neg h1, if_neg h2, if_neg h3] at h
      simp at h

/-- The five field values `parse_a_thing` can record after a colon. -/
def FiveShape (f : Field) : Prop :=
  f = .year ⟨Arguments.empty⟩ ∨ f = .yearOfCentury ⟨Arguments.empty⟩ ∨
  f = .monthName true ⟨Arguments.empty⟩ ∨ f = .day ⟨Arguments.empty⟩ ∨
  f = .weekdayName true ⟨Arguments.empty⟩

/-- A successful `parse_a_thing` yields one of the five directive fields
(with empty arguments) or — only on its very first character — the brace
escape, a one-character literal spanning the second brace. -/
theorem parse_a_thing_shape (input : List Char) (op : Nat) (first : Bool)
    (bit : Option Field) (rest : List (Nat × Char)) :
    ∀ (f : Field) (rest2 : List (Nat × Char)),
      (∀ b, bit = some b → FiveShape b) →
      parse_a_thing input op first bit rest = .ok (f, rest2) →
        FiveShape f ∨
          (first = true ∧ ∃ p r, rest = (p, obr) :: r ∧
            f = .literal (spanOf input p (p + 1)) ∧ rest2 = r) := by
  induction first, bit, rest using parse_a_thing.induct input op with
  | case1 first bit =>
      intro f r2 hbit h
      rw [parse_a_thing.eq_def] at h
      simp at h
  | case2 first bit pos2 c2 rest2 hc =>
      obtain ⟨rfl, rfl⟩ := hc
      intro f r2 hbit h
      rw [parse_a_thing.eq_def] at h
      simp [obr, cbr] at h
      right
      exact ⟨rfl, pos2, rest2, rfl, h.1.symm, h.2.symm⟩
  | case3 first bit pos2 hc =>
      intro f r2 hbit h
      rw [parse_a_thing.eq_def] at h
      simp [obr, cbr] at h
  | case4 first bit pos2 pos21 rest2 hc ih =>
      intro f r2 hbit h
      rw [parse_a_thing.eq_def] at h
      simp [obr, cbr] at h
      rcases ih f r2 (by intro b hb; cases hb; exact Or.inl rfl) h with hs | hesc
      · exact Or.inl hs
      · simp_all
  | case5 first bit pos2 pos21 rest2 hc hy ih =>
      intro f r2 hbit h
      rw [parse_a_thing.eq_def] at h
      simp [obr, cbr] at h
      rcases ih f r2 (by intro b hb; cases hb; exact Or.inr (Or.inl rfl)) h with hs | hesc
      · exact Or.inl hs
      · simp_all
  | case6 first bit pos2 pos21 rest2 hc h1 h2 ih =>
      intro f r2 hbit h
      rw [parse_a_thing.eq_def] at h
      simp [obr, cbr] at h
      rcases ih f r2 (by intro b hb; cases hb; exact Or.inr (Or.inr (Or.inl rfl))) h with hs | hesc
      · exact Or.inl hs
      · simp_all
  | case7 first bit pos2 pos21 rest2 hc h1 h2 h3 ih =>
      intro f r2 hbit h
      rw [parse_a_thing.eq_def] at h
      simp [obr, cbr] at h
      rcases ih f r2 (by intro b hb; cases hb; exact Or.inr (Or.inr (Or.inr (Or.inl rfl)))) h with hs | hesc
      · exact Or.inl hs
      · simp_all
  | case8 first bit pos2 pos21 rest2 hc h1 h2 h3 h4 ih =>
      intro f r2 hbit h
      rw [parse_a_thing.eq_def] at h
      simp [obr, cbr] at h
      rcases ih f r2 (by intro b hb; cases hb; exact Or.inr (Or.inr (Or.inr (Or.inr rfl)))) h with hs | hesc
      · exact Or.inl hs
      · simp_all
  | case9 first bit pos2 pos21 c2 rest2 h1 h2 h3 h4 h5 hc =>
      intro f r2 hbit h
      rw [parse_a_thing.eq_def] at h
      simp_all [obr, cbr]
  | case10 first pos2 rest2 b h1 h2 =>
      intro f r2 hbit h
      rw [parse_a_thing.eq_def] at h
      simp [obr, cbr] at h
      left
      rw [← h.1]
      exact hbit b rfl
  | case11 first pos2 rest2 h1 h2 =>
      intro f r2 hbit h
      rw [parse_a_thing.eq_def] at h
      simp_all [obr, cbr]
  | case12 first bit pos2 c2 rest2 h1 h2 h3 =>
      intro f r2 hbit h
      rw [parse_a_thing.eq_def] at h
      dsimp only at h
      rw [if_neg h1, if_neg h2, if_neg h3] at h
      simp at h

theorem list_drop_of_get? : ∀ (l : List Char) (a : Nat) (c : Char),
    l.get? a = some c → l.drop a = c :: l.drop (a + 1) := by
  intro l
  induction l with
  | nil => intro a c h; simp at h
  | cons x xs ih =>
    intro a c h
    cases a with
    | zero => simp at h; simp [h]
    | succ a =>
      simp only [List.get?_cons_succ] at h
      simpa using ih a c h

theorem spanOf_single (input : List Char) (p : Nat) (c : Char)
    (h : input.get? p = some c) : spanOf input p (p + 1) = [c] := by
  unfold spanOf
  rw [list_drop_of_get? input p c h]
  simp

theorem char_indices_lb : ∀ (l : List Char) (n p : Nat) (c : Char),
    (p, c) ∈ char_indices l n → n ≤ p := by
  intro l
  induction l with
  | nil => intro n p c h; simp [char_indices] at h
  | cons x xs ih =>
    intro n p c h
    simp only [char_indices, List.mem_cons] at h
    rcases h with h | h
    · simp at h; omega
    · have := ih (n + 1) p c h; omega

theorem char_indices_get? : ∀ (l : List Char) (n p : Nat) (c : Char),
    (p, c) ∈ char_indices l n → l.get? (p - n) = some c := by
  intro l
  induction l with
  | nil => intro n p c h; simp [char_indices] at h
  | cons x xs ih =>
    intro n p c h
    simp only [char_indices, List.mem_cons] at h
    rcases h with h | h
    · simp at h
      obtain ⟨rfl, rfl⟩ := h
      simp
    · have hlb := char_indices_lb xs (n + 1) p c h
      have hk : p - n = (p - (n + 1)) + 1 := by omega
      rw [hk]
      simpa using ih (n + 1) p c h

theorem tokens_get? (input : List Char) (p : Nat) (c : Char)
    (h : (p, c) ∈ char_indices input 0) : input.get? p = some c := by
  simpa using char_indices_get? input 0 p c h

/-- The literal content is a contiguous span of the template. -/
def IsSpanOf (input l : List Char) : Prop :=
  ∃ a b, l = (input.drop a).take b

/-- A one-character brace literal produced by an escape. -/
def braceLit (f : Field) : Prop := f = .literal [obr] ∨ f = .literal [cbr]

/-- A literal field of any content. -/
def isLit (f : Field) : Prop := ∃ l, f = .literal l

/-- A field that may sit next to a literal run: a directive field or a
brace-escape literal. -/
def SafeField (f : Field) : Prop := ¬ isLit f ∨ braceLit f

/-- Two adjacent fields are coalescing-compatible: at least one of them is
not a plain literal run. -/
def GoodPair (f g : Field) : Prop := SafeField f ∨ SafeField g

/-- The last pushed field, if any, is safe. -/
def LastSafe (fields : List Field) : Prop :=
  ∀ f ∈ fields.getLast?, SafeField f

/-- Every field a successful parse can emit: a literal or one of the five
directives with empty arguments. -/
def FieldOk (f : Field) : Prop := isLit f ∨ FiveShape f

theorem five_shape_safe (f : Field) (h : FiveShape f) : SafeField f := by
  rcases h with h | h | h | h | h <;> subst h <;>
    exact Or.inl (by rintro ⟨l, hl⟩; cases hl)

theorem brace_lit_safe (f : Field) (h : braceLit f) : SafeField f := Or.inr h

theorem chain'_push (fields : List Field) (x : Field)
    (hc : fields.Chain' GoodPair) (hx : SafeField x) :
    (fields ++ [x]).Chain' GoodPair := by
  rw [List.chain'_append]
  refine ⟨hc, List.chain'_singleton _, ?_⟩
  intro a _ b hb
  simp only [List.head?_cons, Option.mem_def, Option.some.injEq] at hb
  subst hb
  exact Or.inr hx

theorem chain'_push_run (fields : List Field) (x : Field)
    (hc : fields.Chain' GoodPair) (hlast : LastSafe fields) :
    (fields ++ [x]).Chain' GoodPair := by
  rw [List.chain'_append]
  refine ⟨hc, List.chain'_singleton _, ?_⟩
  intro a ha b hb
  simp only [List.head?_cons, Option.mem_def, Option.some.injEq] at hb
  subst hb
  exact Or.inl (hlast a ha)

theorem lastSafe_push (fields : List Field) (x : Field) (hx : SafeField x) :
    LastSafe (fields ++ [x]) := by
  intro f hf
  rw [List.getLast?_concat] at hf
  simp only [Option.mem_def, Option.some.injEq] at hf
  subst hf
  exact hx

theorem collect_spans (input : List Char) (anchor pos : Option Nat)
    (fields : List Field)
    (hspan : ∀ l, Field.literal l ∈ fields → IsSpanOf input l) :
    ∀ l, Field.literal l ∈ collect_up_to_anchor input anchor pos fields →
      IsSpanOf input l := by
  intro l hl
  cases anchor with
  | none => exact hspan l hl
  | some a =>
    simp only [collect_up_to_anchor, List.mem_append] at hl
    rcases hl with hl | hl
    · exact hspan l hl
    · simp only [List.mem_singleton, Field.literal.injEq] at hl
      cases pos with
      | some np =>
        subst hl
        exact ⟨a, np - a, rfl⟩
      | none =>
        subst hl
        exact ⟨a, (input.drop a).length, (List.take_length _).symm⟩

theorem collect_chain (input : List Char) (anchor pos : Option Nat)
    (fields : List Field) (hc : fields.Chain' GoodPair)
    (hlast : LastSafe fields) :
    (collect_up_to_anchor input anchor pos fields).Chain' GoodPair := by
  cases anchor with
  | none => exact hc
  | some a => exact chain'_push_run fields _ hc hlast

theorem collect_fieldok (input : List Char) (anchor pos : Option Nat)
    (fields : List Field) (hok : ∀ f ∈ fields, FieldOk f) :
    ∀ f ∈ collect_up_to_anchor input anchor pos fields, FieldOk f := by
  intro f hf
  cases anchor with
  | none => exact hok f hf
  | some a =>
    simp only [collect_up_to_anchor, List.mem_append] at hf
    rcases hf with hf | hf
    · exact hok f hf
    · simp only [List.mem_singleton] at hf
      subst hf
      exact Or.inl ⟨_, rfl⟩

/-- One-step unfolding of the parser loop on a nonempty stream. -/
theorem parse_format_string_cons (input : List Char) (fuel : Nat)
    (anchor : Option Nat) (fields : List Field) (new_pos : Nat) (c : Char)
    (rest : List (Nat × Char)) :
    parse_format_string input (fuel + 1) anchor fields ((new_pos, c) :: rest) =
      if c = obr then
        let fields2 := collect_up_to_anchor input anchor (some new_pos) fields
        match parse_a_thing input new_pos true none rest with
        | .error e => .error e
        | .ok (field, rest2) =>
          parse_format_string input fuel none (fields2 ++ [field]) rest2
      else if c = cbr then
        match rest with
        | (_, c2) :: rest2 =>
          if c2 = cbr then
            let fields2 := collect_up_to_anchor input anchor (some new_pos) fields
            parse_format_string input fuel none
              (fields2 ++ [.literal (spanOf input new_pos (new_pos + 1))]) rest2
          else .error (.closeCurlyBrace new_pos)
        | [] => .error (.closeCurlyBrace new_pos)
      else
        match anchor with
        | none => parse_format_string input fuel (some new_pos) fields rest
        | some _ => parse_format_string input fuel anchor fields rest := by
  cases anchor <;> rcases rest with _ | ⟨⟨p2, c2⟩, rest2⟩ <;> rfl

/-- Master invariant of the parser loop: on success, every literal field is
a contiguous span of the template, adjacent fields are
coalescing-compatible, and every field is a literal or one of the five
empty-argument directives. -/
theorem parse_format_string_inv (input : List Char) :
    ∀ (fuel : Nat) (anchor : Option Nat) (fields : List Field)
      (rest : List (Nat × Char)),
      ∀ out : List Field,
      (∀ p c, (p, c) ∈ rest → input.get? p = some c) →
      (∀ l, Field.literal l ∈ fields → IsSpanOf input l) →
      fields.Chain' GoodPair →
      LastSafe fields →
      (∀ f ∈ fields, FieldOk f) →
      parse_format_string input fuel anchor fields rest = .ok out →
        (∀ l, Field.literal l ∈ out → IsSpanOf input l) ∧
        out.Chain' GoodPair ∧ (∀ f ∈ out, FieldOk f) := by
  intro fuel anchor fields rest
  induction fuel, anchor, fields, rest using parse_format_string.induct input with
  | case1 t anchor fields =>
    intro out htok hspan hchain hlast hok h
    rw [parse_format_string.eq_1] at h
    simp only [Except.ok.injEq] at h
    subst h
    exact ⟨collect_spans input anchor none fields hspan,
      collect_chain input anchor none fields hchain hlast,
      collect_fieldok input anchor none fields hok⟩
  | case2 anchor fields head tail =>
    intro out htok hspan hchain hlast hok h
    rw [parse_format_string.eq_2] at h
    simp only [Except.ok.injEq] at h
    subst h
    exact ⟨collect_spans input anchor none fields hspan,
      collect_chain input anchor none fields hchain hlast,
      collect_fieldok input anchor none fields hok⟩
  | case3 fuel anchor fields new_pos rest e hpat =>
    intro out htok hspan hchain hlast hok h
    rw [parse_format_string_cons, if_pos rfl] at h
    dsimp only at h
    rw [hpat] at h
    simp at h
  | case4 fuel anchor fields new_pos rest flds2 field rest2 hpat ih =>
    intro out htok hspan hchain hlast hok h
    rw [parse_format_string_cons, if_pos rfl] at h
    dsimp only at h
    rw [hpat] at h
    dsimp only at h
    have hshape := parse_a_thing_shape input new_pos true none rest field rest2
      (by intro b hb; cases hb) hpat
    have hsafe : SafeField field ∧
        (∀ l, Field.literal l ∈ [field] → IsSpanOf input l) := by
      rcases hshape with hs | ⟨-, p2, r, hrest, hfield, -⟩
      · refine ⟨five_shape_safe field hs, ?_⟩
        intro l hl
        simp only [List.mem_singleton] at hl
        subst hl
        rcases hs with hs | hs | hs | hs | hs <;> cases hs
      · have hp2 : input.get? p2 = some obr := by
          refine htok p2 obr ?_
          rw [hrest]
          exact List.mem_cons_of_mem _ (List.mem_cons_self _ _)
        have hone : spanOf input p2 (p2 + 1) = [obr] :=
          spanOf_single input p2 obr hp2
        subst hfield
        constructor
        · rw [hone]
          exact brace_lit_safe _ (Or.inl rfl)
        · intro l hl
          simp only [List.mem_singleton, Field.literal.injEq] at hl
          subst hl
          exact ⟨p2, 1, by simp [spanOf]⟩
    have hsuffix := parse_a_thing_suffix input new_pos true none rest field rest2 hpat
    refine ih out ?_ ?_ ?_ ?_ ?_ h
    · intro p c hpc
      exact htok p c (List.mem_cons_of_mem _ (hsuffix.subset hpc))
    · intro l hl
      rw [List.mem_append] at hl
      rcases hl with hl | hl
      · exact collect_spans input anchor (some new_pos) fields hspan l hl
      · exact hsafe.2 l hl
    · exact chain'_push _ _
        (collect_chain input anchor (some new_pos) fields hchain hlast) hsafe.1
    · exact lastSafe_push _ _ hsafe.1
    · intro f hf
      rw [List.mem_append] at hf
      rcases hf with hf | hf
      · exact collect_fieldok input anchor (some new_pos) fields hok f hf
      · simp only [List.mem_singleton] at hf
        subst hf
        rcases hshape with hs | ⟨-, p2, r, -, hfield, -⟩
        · exact Or.inr hs
        · subst hfield
          exact Or.inl ⟨_, rfl⟩
  | case5 fuel anchor fields new_pos fst rest2 flds2 hne ih =>
    intro out htok hspan hchain hlast hok h
    rw [parse_format_string_cons] at h
    simp only [if_neg hne, eq_self_iff_true, if_true] at h
    have hnp : input.get? new_pos = some cbr :=
      htok new_pos cbr (List.mem_cons_self _ _)
    have hone : spanOf input new_pos (new_pos + 1) = [cbr] :=
      spanOf_single input new_pos cbr hnp
    refine ih out ?_ ?_ ?_ ?_ ?_ h
    · intro p c hpc
      exact htok p c (List.mem_cons_of_mem _ (List.mem_cons_of_mem _ hpc))
    · intro l hl
      rw [List.mem_append] at hl
      rcases hl with hl | hl
      · exact collect_spans input anchor (some new_pos) fields hspan l hl
      · simp only [List.mem_singleton, Field.literal.injEq] at hl
        subst hl
        exact ⟨new_pos, 1, by simp [spanOf]⟩
    · refine chain'_push _ _
        (collect_chain input anchor (some new_pos) fields hchain hlast) ?_
      rw [hone]
      exact brace_lit_safe _ (Or.inr rfl)
    · refine lastSafe_push _ _ ?_
      rw [hone]
      exact brace_lit_safe _ (Or.inr rfl)
    · intro f hf
      rw [List.mem_append] at hf
      rcases hf with hf | hf
      · exact collect_fieldok input anchor (some new_pos) fields hok f hf
      · simp only [List.mem_singleton] at hf
        subst hf
        exact Or.inl ⟨_, rfl⟩
  | case6 fuel anchor fields new_pos fst c2 rest2 hc2 hne =>
    intro out htok hspan hchain hlast hok h
    rw [parse_format_string_cons] at h
    simp only [if_neg hne, eq_self_iff_true, if_true, if_neg hc2] at h
    simp at h
  | case7 fuel anchor fields new_pos hne =>
    intro out htok hspan hchain hlast hok h
    rw [parse_format_string_cons] at h
    simp only [if_neg hne, eq_self_iff_true, if_true] at h
    simp at h
  | case8 fuel fields new_pos c rest hobr hcbr ih =>
    intro out htok hspan hchain hlast hok h
    rw [parse_format_string_cons, if_neg hobr, if_neg hcbr] at h
    dsimp only at h
    refine ih out ?_ hspan hchain hlast hok h
    intro p c hpc
    exact htok p c (List.mem_cons_of_mem _ hpc)
  | case9 fuel fields new_pos c rest hobr hcbr val ih =>
    intro out htok hspan hchain hlast hok h
    rw [parse_format_string_cons, if_neg hobr, if_neg hcbr] at h
    dsimp only at h
    refine ih out ?_ hspan hchain hlast hok h
    intro p c hpc
    exact htok p c (List.mem_cons_of_mem _ hpc)

theorem char_indices_length : ∀ (l : List Char) (n : Nat),
    (char_indices l n).length = l.length := by
  intro l
  induction l with
  | nil => intro n; rfl
  | cons x xs ih => intro n; simp [char_indices, ih]

theorem char_indices_snd_mem : ∀ (l : List Char) (n : Nat) (pc : Nat × Char),
    pc ∈ char_indices l n → pc.2 ∈ l := by
  intro l
  induction l with
  | nil => intro n pc h; simp [char_indices] at h
  | cons x xs ih =>
    intro n pc h
    simp only [char_indices, List.mem_cons] at h
    rcases h with h | h
    · subst h; simp
    · exact List.mem_cons_of_mem _ (ih (n + 1) pc h)

/-- The anchor the scanner ends up with after absorbing a run of plain
characters. -/
def anchor_after (anchor : Option Nat) (rest : List (Nat × Char)) : Option Nat :=
  match anchor, rest with
  | some a, _ => some a
  | none, [] => none
  | none, (p, _) :: _ => some p

/-- On a stream free of braces the parser only absorbs characters and emits
the final literal run. -/
theorem parse_format_string_literal_only (input : List Char) :
    ∀ (fuel : Nat) (anchor : Option Nat) (fields : List Field)
      (rest : List (Nat × Char)),
      rest.length ≤ fuel →
      (∀ pc ∈ rest, pc.2 ≠ obr ∧ pc.2 ≠ cbr) →
      parse_format_string input fuel anchor fields rest =
        .ok (collect_up_to_anchor input (anchor_after anchor rest) none fields) := by
  intro fuel anchor fields rest
  induction fuel, anchor, fields, rest using parse_format_string.induct input with
  | case1 t anchor fields =>
    intro hlen hplain
    rw [parse_format_string.eq_1]
    cases anchor <;> rfl
  | case2 anchor fields head tail =>
    intro hlen hplain
    simp at hlen
  | case3 fuel anchor fields new_pos rest e hpat =>
    intro hlen hplain
    exact absurd rfl (hplain (new_pos, obr) (List.mem_cons_self _ _)).1
  | case4 fuel anchor fields new_pos rest flds2 field rest2 hpat ih =>
    intro hlen hplain
    exact absurd rfl (hplain (new_pos, obr) (List.mem_cons_self _ _)).1
  | case5 fuel anchor fields new_pos fst rest2 flds2 hne ih =>
    intro hlen hplain
    exact absurd rfl (hplain (new_pos, cbr) (List.mem_cons_self _ _)).2
  | case6 fuel anchor fields new_pos fst c2 rest2 hc2 hne =>
    intro hlen hplain
    exact absurd rfl (hplain (new_pos, cbr) (List.mem_cons_self _ _)).2
  | case7 fuel anchor fields new_pos hne =>
    intro hlen hplain
    exact absurd rfl (hplain (new_pos, cbr) (List.mem_cons_self _ _)).2
  | case8 fuel fields new_pos c rest hobr hcbr ih =>
    intro hlen hplain
    rw [parse_format_string_cons, if_neg hobr, if_neg hcbr]
    dsimp only
    rw [ih (by simpa using Nat.le_of_succ_le_succ (by simpa using hlen))
      (fun pc hpc => hplain pc (List.mem_cons_of_mem _ hpc))]
    rfl
  | case9 fuel fields new_pos c rest hobr hcbr val ih =>
    intro hlen hplain
    rw [parse_format_string_cons, if_neg hobr, if_neg hcbr]
    dsimp only
    rw [ih (by simpa using Nat.le_of_succ_le_succ (by simpa using hlen))
      (fun pc hpc => hplain pc (List.mem_cons_of_mem _ hpc))]
    rfl

theorem format_single_literal (s : List Char) (when : Date) :
    DateFormat.format ⟨[Field.literal s]⟩ when = s := by
  simp [DateFormat.format, Field.format, write_str]

theorem field_format_ok (f : Field) (when : Date) (w : List Char) :
    ∃ out, Field.format f when w = .ok out := by
  cases f with
  | literal s => exact ⟨_, rfl⟩
  | year a => exact ⟨_, rfl⟩
  | yearOfCentury a => exact ⟨_, rfl⟩
  | monthName long a => cases long <;> exact ⟨_, rfl⟩
  | day a => exact ⟨_, rfl⟩
  | weekdayName long a => cases long <;> exact ⟨_, rfl⟩

theorem parse_fields (input : List Char) (df : DateFormat)
    (h : DateFormat.parse input = .ok df) :
    (∀ l, Field.literal l ∈ df.fields → IsSpanOf input l) ∧
    df.fields.Chain' GoodPair ∧ (∀ f ∈ df.fields, FieldOk f) := by
  unfold DateFormat.parse at h
  cases hp : parse_format_string input input.length none [] (char_indices input 0) with
  | error e =>
    rw [hp] at h
    exact absurd h (by simp)
  | ok fields =>
    rw [hp] at h
    simp only [Except.ok.injEq] at h
    subst h
    exact parse_format_string_inv input input.length none [] (char_indices input 0)
      fields (fun p c hpc => tokens_get? input p c hpc)
      (by intro l hl; simp at hl)
      List.chain'_nil
      (by intro f hf; simp at hf)
      (by intro f hf; simp at hf)
      hp

/-- C3 (amended): inside a field, an unexpected character where a body
character was expected (not `:`, not `}`, and not the first-position `{`
escape) yields `InvalidChar` with `colon = false` at that offset; an
unrecognized character where a field code was expected yields `InvalidChar`
with `colon = true` at that offset; end of input before the closing `}`
yields `OpenCurlyBrace` anchored at the opening brace offset; `}` with no
recorded field code yields `MissingField` with both offsets.  However, a
recognized field code need NOT be immediately followed by `}`: the next
character must be `}` (closing with the last recorded code) or `:`
(starting another code, which overwrites the earlier one).  The four golden
error cases hold as stated. -/
theorem claim_c3_amended :
    (∀ (input : List Char) (op p : Nat) (c : Char) (rest : List (Nat × Char))
        (first : Bool) (bit : Option Field),
      ¬(c = obr ∧ first = true) → c ≠ ':' → c ≠ cbr →
      parse_a_thing input op first bit ((p, c) :: rest) =
        .error (.invalidChar c false p)) ∧
    (∀ (input : List Char) (op p p2 : Nat) (c2 : Char) (rest : List (Nat × Char))
        (first : Bool) (bit : Option Field),
      c2 ≠ 'Y' → c2 ≠ 'y' → c2 ≠ 'M' → c2 ≠ 'D' → c2 ≠ 'E' →
      parse_a_thing input op first bit ((p, ':') :: (p2, c2) :: rest) =
        .error (.invalidChar c2 true p2)) ∧
    (∀ (input : List Char) (op : Nat) (first : Bool) (bit : Option Field),
      parse_a_thing input op first bit [] = .error (.openCurlyBrace op)) ∧
    (∀ (input : List Char) (op : Nat) (first : Bool) (bit : Option Field)
        (rest : List (Nat × Char)) (p : Nat),
      parse_a_thing input op first bit rest = .error (.openCurlyBrace p) → p = op) ∧
    (∀ (input : List Char) (op p : Nat) (rest : List (Nat × Char)) (first : Bool),
      parse_a_thing input op first none ((p, cbr) :: rest) =
        .error (.missingField op p)) ∧
    (∀ (input : List Char) (op p : Nat) (rest : List (Nat × Char)) (first : Bool)
        (b : Field),
      parse_a_thing input op first (some b) ((p, cbr) :: rest) = .ok (b, rest)) ∧
    (∀ (input : List Char) (op p p2 : Nat) (rest : List (Nat × Char))
        (first : Bool) (bit : Option Field),
      parse_a_thing input op first bit ((p, ':') :: (p2, 'Y') :: rest) =
        parse_a_thing input op false (some (.year ⟨Arguments.empty⟩)) rest) ∧
    DateFormat.parse [obr, cbr] = .error (.missingField 0 1) ∧
    DateFormat.parse [obr, '7', cbr] = .error (.invalidChar '7' false 1) ∧
    DateFormat.parse [obr, ':', '7', cbr] = .error (.invalidChar '7' true 2) ∧
    DateFormat.parse [obr] = .error (.openCurlyBrace 0) := by
  refine ⟨?_, ?_, ?_, ?_, ?_, ?_, ?_, by decide, by decide, by decide, by decide⟩
  · intro input op p c rest first bit h1 h2 h3
    rw [parse_a_thing.eq_def]
    try dsimp only
    rw [if_neg h1, if_neg h2, if_neg h3]
  · intro input op p p2 c2 rest first bit h1 h2 h3 h4 h5
    rw [parse_a_thing.eq_def]
    try dsimp only
    rw [if_neg (by rintro ⟨hh, -⟩; exact absurd hh (by decide)), if_pos rfl]
    try dsimp only
    rw [if_neg h1, if_neg h2, if_neg h3, if_neg h4, if_neg h5]
  · intro input op first bit
    rw [parse_a_thing.eq_def]
  · exact fun input op first bit rest p h =>
      parse_a_thing_openCurly input op first bit rest p h
  · intro input op p rest first
    rw [parse_a_thing.eq_def]
    try dsimp only
    rw [if_neg (by rintro ⟨hh, -⟩; exact absurd hh (by decide)),
      if_neg (by decide), if_pos rfl]
  · intro input op p rest first b
    rw [parse_a_thing.eq_def]
    try dsimp only
    rw [if_neg (by rintro ⟨hh, -⟩; exact absurd hh (by decide)),
      if_neg (by decide), if_pos rfl]
  · intro input op p p2 rest first bit
    rw [parse_a_thing.eq_def]
    try dsimp only
    rw [if_neg (by rintro ⟨hh, -⟩; exact absurd hh (by decide)), if_pos rfl]
    try dsimp only
    rw [if_pos rfl]

/-- Witness for C3: the amended clauses applied at concrete inputs. -/
theorem claim_c3_witness :
    parse_a_thing [] 0 true none [(1, 'x')] = .error (.invalidChar 'x' false 1) ∧
    parse_a_thing [] 0 true none [(0, ':'), (2, '7')] =
      .error (.invalidChar '7' true 2) ∧
    parse_a_thing [] 5 false (some (.day ⟨Arguments.empty⟩)) [(9, cbr), (10, 'q')] =
      .ok (.day ⟨Arguments.empty⟩, [(10, 'q')]) :=
  ⟨claim_c3_amended.1 [] 0 1 'x' [] true none (by decide) (by decide) (by decide),
   claim_c3_amended.2.1 [] 0 0 2 '7' [] true none (by decide) (by decide)
     (by decide) (by decide) (by decide),
   claim_c3_amended.2.2.2.2.2.1 [] 5 9 [(10, 'q')] false (.day ⟨Arguments.empty⟩)⟩

/-- C3 counterexample: a recognized field code is not forced to be followed
by `}`.  The template `"{:Y:D}"` parses successfully (to the `Day` field —
the later code overwrites the earlier), where the claim as stated requires
an error. -/
theorem claim_c3_counterexample :
    DateFormat.parse [obr, ':', 'Y', ':', 'D', cbr] =
      .ok ⟨[.day ⟨Arguments.empty⟩]⟩ := by
  decide

/-- C4: brace escapes.  After an unescaped `{`, a second `{` flushes the
pending literal and emits a one-character Literal `"{"`; an unescaped `}`
followed by a second `}` flushes the pending literal and emits a
one-character Literal `"}"`; an unescaped `}` not followed by `}` (or at
end of input) fails with `CloseCurlyBrace` anchored at the lone brace; and
`parse "{{"` yields Literal `"{"`, `parse "}}"` yields Literal `"}"`,
`parse "}"` is `CloseCurlyBrace {offset 0}`. -/
theorem claim_c4_escapes :
    (∀ (input : List Char) (fuel : Nat) (anchor : Option Nat)
        (fields : List Field) (p p2 : Nat) (rest : List (Nat × Char)),
      input.get? p2 = some obr →
      parse_format_string input (fuel + 1) anchor fields
          ((p, obr) :: (p2, obr) :: rest) =
        parse_format_string input fuel none
          (collect_up_to_anchor input anchor (some p) fields ++
            [.literal [obr]]) rest) ∧
    (∀ (input : List Char) (fuel : Nat) (anchor : Option Nat)
        (fields : List Field) (p p2 : Nat) (rest : List (Nat × Char)),
      input.get? p = some cbr →
      parse_format_string input (fuel + 1) anchor fields
          ((p, cbr) :: (p2, cbr) :: rest) =
        parse_format_string input fuel none
          (collect_up_to_anchor input anchor (some p) fields ++
            [.literal [cbr]]) rest) ∧
    (∀ (input : List Char) (fuel : Nat) (anchor : Option Nat)
        (fields : List Field) (p p2 : Nat) (c2 : Char) (rest : List (Nat × Char)),
      c2 ≠ cbr →
      parse_format_string input (fuel + 1) anchor fields
          ((p, cbr) :: (p2, c2) :: rest) = .error (.closeCurlyBrace p)) ∧
    (∀ (input : List Char) (fuel : Nat) (anchor : Option Nat)
        (fields : List Field) (p : Nat),
      parse_format_string input (fuel + 1) anchor fields [(p, cbr)] =
        .error (.closeCurlyBrace p)) ∧
    DateFormat.parse [obr, obr] = .ok ⟨[.literal [obr]]⟩ ∧
    DateFormat.parse [cbr, cbr] = .ok ⟨[.literal [cbr]]⟩ ∧
    DateFormat.parse [cbr] = .error (.closeCurlyBrace 0) := by
  refine ⟨?_, ?_, ?_, ?_, by decide, by decide, by decide⟩
  · intro input fuel anchor fields p p2 rest hget
    rw [parse_format_string_cons, if_pos rfl]
    try dsimp only
    rw [parse_a_thing.eq_def]
    try dsimp only
    rw [if_pos ⟨rfl, rfl⟩]
    rw [spanOf_single input p2 obr hget]
  · intro input fuel anchor fields p p2 rest hget
    rw [parse_format_string_cons, if_neg (by decide : ¬cbr = obr), if_pos rfl]
    try dsimp only
    rw [if_pos rfl]
    rw [spanOf_single input p cbr hget]
  · intro input fuel anchor fields p p2 c2 rest hne
    rw [parse_format_string_cons, if_neg (by decide : ¬cbr = obr), if_pos rfl]
    try dsimp only
    rw [if_neg hne]
  · intro input fuel anchor fields p
    rw [parse_format_string_cons, if_neg (by decide : ¬cbr = obr), if_pos rfl]

/-- Witness for C4: the escape equations applied at concrete inputs. -/
theorem claim_c4_witness :
    parse_format_string ['a', obr, obr] 3 (some 0) [] [(1, obr), (2, obr)] =
      parse_format_string ['a', obr, obr] 2 none
        (collect_up_to_anchor ['a', obr, obr] (some 0) (some 1) [] ++
          [.literal [obr]]) [] ∧
    parse_format_string ['a', cbr] 2 (some 0) [] [(1, cbr), (2, cbr)] =
      parse_format_string ['a', cbr] 1 none
        (collect_up_to_anchor ['a', cbr] (some 0) (some 1) [] ++
          [.literal [cbr]]) [] ∧
    parse_format_string ['x'] 2 none [] [(0, cbr), (1, 'x')] =
      .error (.closeCurlyBrace 0) ∧
    parse_format_string [] 1 none [] [(0, cbr)] = .error (.closeCurlyBrace 0) :=
  ⟨claim_c4_escapes.1 ['a', obr, obr] 2 (some 0) [] 1 2 [] (by decide),
   claim_c4_escapes.2.1 ['a', cbr] 1 (some 0) [] 1 2 [] (by decide),
   claim_c4_escapes.2.2.1 ['x'] 1 none [] 0 1 'x' [] (by decide),
   claim_c4_escapes.2.2.2.1 [] 0 none [] 0⟩

/-- C5 (amended): in every successfully parsed `DateFormat`, each Literal
field is a contiguous span of the original template (the zero-copy
representation), and two consecutive Literal fields occur only through
brace escapes: in every adjacent pair at least one field is a directive or
a one-character `"{"` / `"}"` escape literal.  (Unqualified coalescing
fails: see the counterexample.) -/
theorem claim_c5_amended (input : List Char) (df : DateFormat)
    (h : DateFormat.parse input = .ok df) :
    (∀ l, Field.literal l ∈ df.fields → IsSpanOf input l) ∧
    df.fields.Chain' GoodPair :=
  ⟨(parse_fields input df h).1, (parse_fields input df h).2.1⟩

/-- Witness for C5: the amended invariant applied to `"a{{b"`. -/
theorem claim_c5_witness :
    List.Chain' GoodPair
      [Field.literal ['a'], Field.literal [obr], Field.literal ['b']] :=
  (claim_c5_amended ['a', obr, obr, 'b']
    ⟨[Field.literal ['a'], Field.literal [obr], Field.literal ['b']]⟩
    (by decide)).2

/-- C5 counterexample: parsing `"{{b"` produces two consecutive Literal
fields — the escape literal `"{"` (the span `input[1..2]`) and the run
`"b"` (the adjacent span `input[2..3]`) — refuting the unqualified claim
that no two consecutive output fields are Literals of adjacent text. -/
theorem claim_c5_counterexample :
    DateFormat.parse [obr, obr, 'b'] =
      .ok ⟨[.literal [obr], .literal ['b']]⟩ := by
  decide

/-- C10: in every template accepted by `DateFormat::parse`, every
non-Literal field is one of `Year`, `YearOfCentury`, `Day`, long
`MonthName`, or long `WeekdayName`, each carrying empty `Arguments`; hence
no parsed template renders a short month or weekday name or applies any
padding. -/
theorem claim_c10_field_inventory (input : List Char) (df : DateFormat)
    (h : DateFormat.parse input = .ok df) :
    ∀ f ∈ df.fields, (∃ l, f = .literal l) ∨
      f = .year ⟨Arguments.empty⟩ ∨ f = .yearOfCentury ⟨Arguments.empty⟩ ∨
      f = .monthName true ⟨Arguments.empty⟩ ∨ f = .day ⟨Arguments.empty⟩ ∨
      f = .weekdayName true ⟨Arguments.empty⟩ := by
  intro f hf
  have hok := (parse_fields input df h).2.2 f hf
  simpa [FieldOk, isLit, FiveShape] using hok

/-- Witness for C10: the inventory applied to the parse of `"{:Y}"`. -/
theorem claim_c10_witness :
    (∃ l, Field.year ⟨Arguments.empty⟩ = Field.literal l) ∨
      Field.year ⟨Arguments.empty⟩ = Field.year ⟨Arguments.empty⟩ ∨
      Field.year ⟨Arguments.empty⟩ = Field.yearOfCentury ⟨Arguments.empty⟩ ∨
      Field.year ⟨Arguments.empty⟩ = Field.monthName true ⟨Arguments.empty⟩ ∨
      Field.year ⟨Arguments.empty⟩ = Field.day ⟨Arguments.empty⟩ ∨
      Field.year ⟨Arguments.empty⟩ = Field.weekdayName true ⟨Arguments.empty⟩ :=
  claim_c10_field_inventory [obr, ':', 'Y', cbr] ⟨[.year ⟨Arguments.empty⟩]⟩
    (by decide) (.year ⟨Arguments.empty⟩) (by simp)

/-- C7: rendering cannot fail.  Every single-field render into the
in-memory buffer returns `ok` (no write failure is surfaced), and
`DateFormat::format` is the total function that folds those writes over
the field list — it returns a plain string with no error path. -/
theorem claim_c7_render_total :
    (∀ (f : Field) (when : Date) (w : List Char),
      ∃ out, Field.format f when w = .ok out) ∧
    (∀ (df : DateFormat) (when : Date),
      DateFormat.format df when =
        df.fields.foldl
          (fun buf bit =>
            match Field.format bit when buf with
            | .ok b => b
            | .error _ => buf)
          []) :=
  ⟨field_format_ok, fun _ _ => rfl⟩


/-- C6: rendering concatenates fields in order and reproduces the golden
outputs.  `"{:Y}-{:M}-{:D}"` parses to the five-field sequence and renders
against the date with day count 736220 — which is 13 September 2015: its
`year()` is 2015, `month()` September, `day()` 13 — to
`"2015-September-13"`; `"{:Y}"` renders against it to `"2015"`; and every
template of only literal text (including the empty template) parses and
renders to exactly that text for every date. -/
theorem claim_c6_rendering :
    DateFormat.parse
        [obr, ':', 'Y', cbr, '-', obr, ':', 'M', cbr, '-', obr, ':', 'D', cbr] =
      .ok ⟨[.year ⟨Arguments.empty⟩, .literal ['-'],
            .monthName true ⟨Arguments.empty⟩, .literal ['-'],
            .day ⟨Arguments.empty⟩]⟩ ∧
    DateFormat.format
        ⟨[.year ⟨Arguments.empty⟩, .literal ['-'],
          .monthName true ⟨Arguments.empty⟩, .literal ['-'],
          .day ⟨Arguments.empty⟩]⟩ ⟨736220⟩ = "2015-September-13".toList ∧
    DateFormat.parse [obr, ':', 'Y', cbr] = .ok ⟨[.year ⟨Arguments.empty⟩]⟩ ∧
    DateFormat.format ⟨[.year ⟨Arguments.empty⟩]⟩ ⟨736220⟩ = "2015".toList ∧
    Date.year ⟨736220⟩ = 2015 ∧ Date.month ⟨736220⟩ = Month.september ∧
    Date.day ⟨736220⟩ = 13 ∧
    (∀ s : List Char, (∀ c ∈ s, c ≠ obr ∧ c ≠ cbr) →
      ∃ fs, DateFormat.parse s = .ok fs ∧
        ∀ when : Date, DateFormat.format fs when = s) := by
  refine ⟨by decide, by decide, by decide, by decide, by decide, by decide,
    by decide, ?_⟩
  intro s hplain
  cases s with
  | nil => exact ⟨⟨[]⟩, by decide, fun when => rfl⟩
  | cons c t =>
    refine ⟨⟨[.literal (c :: t)]⟩, ?_, fun when => format_single_literal _ _⟩
    have hps : parse_format_string (c :: t) (c :: t).length none []
        (char_indices (c :: t) 0) = .ok [Field.literal (c :: t)] := by
      rw [parse_format_string_literal_only (c :: t) (c :: t).length none []
        (char_indices (c :: t) 0) (by rw [char_indices_length])
        (fun pc hpc => hplain pc.2 (char_indices_snd_mem _ _ _ hpc))]
      simp [anchor_after, char_indices, collect_up_to_anchor]
    unfold DateFormat.parse
    rw [hps]

/-- Witness for C6: the literal-only rendering statement applied to the
template `"Date!"` and an arbitrary concrete date. -/
theorem claim_c6_witness :
    DateFormat.parse "Date!".toList = .ok ⟨[.literal "Date!".toList]⟩ ∧
    DateFormat.format ⟨[.literal "Date!".toList]⟩ ⟨736220⟩ = "Date!".toList := by
  obtain ⟨fs, hp, hf⟩ :=
    claim_c6_rendering.2.2.2.2.2.2.2 "Date!".toList (by decide)
  have hpx : DateFormat.parse "Date!".toList =
      .ok ⟨[.literal "Date!".toList]⟩ := by decide
  rw [hpx] at hp
  simp only [Except.ok.injEq] at hp
  subst hp
  exact ⟨hpx, hf ⟨736220⟩⟩

/-- Witness for C7: single-field rendering applied at a concrete field,
date and buffer. -/
theorem claim_c7_witness :
    ∃ out, Field.format (.year ⟨Arguments.empty⟩) ⟨736220⟩ [] = .ok out :=
  claim_c7_render_total.1 (.year ⟨Arguments.empty⟩) ⟨736220⟩ []

/-- Witness for C8: the leap-year characterisation applied at year 2000. -/
theorem claim_c8_witness :
    is_leap_year 2000 = true ↔ (4 ∣ (2000 : Int) ∧ (¬(100 ∣ (2000 : Int)) ∨ 400 ∣ (2000 : Int))) :=
  claim_c8_is_leap_year.1 2000
